import Mathlib

/-!
Shallow embedding of the Vyappar data-store module (`src/lib/store.ts`) and the
UI form handlers that call it (`Inventory.handleSubmit`, `Invoices.handleSubmit`).

Modelling conventions:
* Timestamps (`createdAt`, ISO-8601 strings in the code, always compared after
  conversion through `new Date(...)`) are modelled as `Int` milliseconds since
  the epoch, which is exactly the value JavaScript `Date` comparison uses.
* Money (`price`, `total`) is modelled as `ℚ`; quantities are `Int`
  (the UI parses them with `parseInt`).
* `crypto.randomUUID()` and `new Date()` are environment inputs: each creating
  operation takes the generated `newId` / `createdAt` as an explicit argument.
* `localStorage` plus the `getInventory`/`saveInventory`/`getInvoices`/
  `saveInvoices` wrappers are modelled by explicit state passing: a `Store`
  value holds the two persisted collections, and every operation that the code
  ends with a `save*` call returns the updated collections.
-/

namespace Vyappar

/-- `InventoryItem` record from `store.ts`. -/
structure InventoryItem where
  id : String
  name : String
  quantity : Int
  price : ℚ
  createdAt : Int
deriving Repr, DecidableEq

/-- One entry of `Invoice.items` from `store.ts`. -/
structure LineItem where
  itemId : String
  itemName : String
  quantity : Int
  price : ℚ
  total : ℚ
deriving Repr, DecidableEq

/-- `Invoice` record from `store.ts`. -/
structure Invoice where
  id : String
  customerName : String
  items : List LineItem
  total : ℚ
  createdAt : Int
deriving Repr, DecidableEq

/-- The two persisted collections (`vyappar_inventory` and `vyappar_invoices`
localStorage keys). -/
structure Store where
  inventory : List InventoryItem
  invoices : List Invoice
deriving Repr, DecidableEq

/-- A `Partial<InventoryItem>` value: each field optionally present.
The only caller (`Inventory.saveEdit`) passes `name`, `quantity` and `price`. -/
structure InventoryUpdate where
  idField : Option String
  nameField : Option String
  quantityField : Option Int
  priceField : Option ℚ
  createdAtField : Option Int
deriving Repr, DecidableEq

/-- The spread `{ ...items[index], ...updates }`: a present field of the
update overrides the existing field. -/
def applyUpdate (i : InventoryItem) (u : InventoryUpdate) : InventoryItem :=
  { id := u.idField.getD i.id
    name := u.nameField.getD i.name
    quantity := u.quantityField.getD i.quantity
    price := u.priceField.getD i.price
    createdAt := u.createdAtField.getD i.createdAt }

/-- `addInventoryItem` (store.ts:37-47): no validation; appends a new item
built from the given fields plus the generated id and timestamp, persists,
and returns the created item. -/
def addInventoryItem (name : String) (quantity : Int) (price : ℚ)
    (newId : String) (now : Int) (s : Store) : InventoryItem × Store :=
  let newItem : InventoryItem :=
    { id := newId, name := name, quantity := quantity, price := price, createdAt := now }
  (newItem, { s with inventory := s.inventory ++ [newItem] })

/-- `updateInventoryItem` (store.ts:49-56): `findIndex` locates the first item
with the given id; if found, the update is spread onto it and the array is
saved; otherwise nothing happens. -/
def updateInventoryItem (id : String) (u : InventoryUpdate) :
    List InventoryItem → List InventoryItem
  | [] => []
  | i :: rest =>
    if i.id = id then applyUpdate i u :: rest
    else i :: updateInventoryItem id u rest

/-- `deleteInventoryItem` (store.ts:58-61): keeps every item whose id differs. -/
def deleteInventoryItem (id : String) (items : List InventoryItem) :
    List InventoryItem :=
  items.filter (fun i => i.id ≠ id)

/-- `reduceInventoryQuantity` (store.ts:63-70): `find` locates the first item
with the given id; if found, its quantity becomes `Math.max(0, quantity - amount)`
and the array is saved; otherwise nothing happens. -/
def reduceInventoryQuantity (itemId : String) (amount : Int) :
    List InventoryItem → List InventoryItem
  | [] => []
  | i :: rest =>
    if i.id = itemId then { i with quantity := max 0 (i.quantity - amount) } :: rest
    else i :: reduceInventoryQuantity itemId amount rest

/-- `createInvoice` (store.ts:82-98): appends the new invoice (with generated
id and timestamp) to the invoice collection and persists it; then, as a second
step, calls `reduceInventoryQuantity` for every line item. -/
def createInvoice (customerName : String) (items : List LineItem) (total : ℚ)
    (newId : String) (now : Int) (s : Store) : Invoice × Store :=
  let newInvoice : Invoice :=
    { id := newId, customerName := customerName, items := items, total := total,
      createdAt := now }
  let invoices := s.invoices ++ [newInvoice]
  let inventory :=
    items.foldl (fun inv item => reduceInventoryQuantity item.itemId item.quantity inv)
      s.inventory
  (newInvoice, { inventory := inventory, invoices := invoices })

/-- `deleteInvoice` (store.ts:100-103): filters the invoice collection; the
inventory collection is not touched. -/
def deleteInvoice (id : String) (s : Store) : Store :=
  { s with invoices := s.invoices.filter (fun inv => inv.id ≠ id) }

/-- Helper for stating C2: the pointwise update the claim describes. -/
def clampReduce (itemId : String) (amount : Int) (i : InventoryItem) : InventoryItem :=
  if i.id = itemId then { i with quantity := max 0 (i.quantity - amount) } else i

lemma reduceInventoryQuantity_of_not_mem (itemId : String) (amount : Int)
    (items : List InventoryItem) (h : ∀ i ∈ items, i.id ≠ itemId) :
    reduceInventoryQuantity itemId amount items = items := by
  induction items with
  | nil => rfl
  | cons i rest ih =>
    simp only [reduceInventoryQuantity]
    rw [if_neg (h i (List.mem_cons_self i rest))]
    rw [ih (fun j hj => h j (List.mem_cons_of_mem i hj))]

lemma map_clampReduce_of_not_mem (itemId : String) (amount : Int)
    (items : List InventoryItem) (h : ∀ i ∈ items, i.id ≠ itemId) :
    items.map (clampReduce itemId amount) = items := by
  induction items with
  | nil => rfl
  | cons i rest ih =>
    simp only [List.map_cons]
    rw [show clampReduce itemId amount i = i from
      by simp [clampReduce, h i (List.mem_cons_self i rest)]]
    rw [ih (fun j hj => h j (List.mem_cons_of_mem i hj))]

/-- When the item ids are pairwise distinct (as they are in the application,
where ids are freshly generated UUIDs), `reduceInventoryQuantity` acts
pointwise: the matching item is clamped, everything else is untouched. -/
lemma reduceInventoryQuantity_eq_map (itemId : String) (amount : Int)
    (items : List InventoryItem) (hnd : (items.map (·.id)).Nodup) :
    reduceInventoryQuantity itemId amount items =
      items.map (clampReduce itemId amount) := by
  induction items with
  | nil => rfl
  | cons i rest ih =>
    simp only [List.map_cons, List.nodup_cons] at hnd
    obtain ⟨hni, hrest⟩ := hnd
    simp only [reduceInventoryQuantity, List.map_cons]
    by_cases hid : i.id = itemId
    · rw [if_pos hid]
      have hrestne : ∀ j ∈ rest, j.id ≠ itemId := by
        intro j hj hjid
        apply hni
        have : j.id ∈ rest.map (·.id) := List.mem_map_of_mem (·.id) hj
        rw [hid, ← hjid]
        exact this
      rw [map_clampReduce_of_not_mem itemId amount rest hrestne]
      simp [clampReduce, hid]
    · rw [if_neg hid, ih hrest]
      simp [clampReduce, hid]

/-- C2: for every inventory state with distinct ids, every item id and every
integer amount, `reduceInventoryQuantity` (a) is a no-op when no item has the
id, and (b) maps the matching item's quantity to `max 0 (quantity - amount)`
while changing no other field and no other item. It is a total function, so it
never raises, even when `amount` exceeds the current stock. -/
theorem reduceInventoryQuantity_spec (items : List InventoryItem)
    (itemId : String) (amount : Int) (hnd : (items.map (·.id)).Nodup) :
    ((∀ i ∈ items, i.id ≠ itemId) →
        reduceInventoryQuantity itemId amount items = items) ∧
      reduceInventoryQuantity itemId amount items =
        items.map (fun i =>
          if i.id = itemId then { i with quantity := max 0 (i.quantity - amount) }
          else i) := by
  constructor
  · exact reduceInventoryQuantity_of_not_mem itemId amount items
  · exact reduceInventoryQuantity_eq_map itemId amount items hnd

/-- C2 witness: the spec's own example — an item with quantity 3 reduced by 10
ends at quantity 0, and reducing an absent id is a no-op. -/
theorem reduceInventoryQuantity_spec_witness :
    reduceInventoryQuantity "a" 10
        [⟨"a", "Widget", 3, 50, 0⟩, ⟨"b", "Gadget", 8, 20, 0⟩] =
      [⟨"a", "Widget", 0, 50, 0⟩, ⟨"b", "Gadget", 8, 20, 0⟩] ∧
    reduceInventoryQuantity "zz" 10 [⟨"a", "Widget", 3, 50, 0⟩] =
      [⟨"a", "Widget", 3, 50, 0⟩] := by
  constructor
  · have h := reduceInventoryQuantity_spec
      [⟨"a", "Widget", 3, 50, 0⟩, ⟨"b", "Gadget", 8, 20, 0⟩] "a" 10 (by decide)
    rw [h.2]
    decide
  · have h := reduceInventoryQuantity_spec [⟨"a", "Widget", 3, 50, 0⟩] "zz" 10
      (by decide)
    exact h.1 (by decide)

/-! ## The inventory quantity invariant (C1) -/

/-- The spec's inventory invariant: every stored item's quantity is ≥ 0. -/
def invOk (items : List InventoryItem) : Prop := ∀ i ∈ items, 0 ≤ i.quantity

instance (items : List InventoryItem) : Decidable (invOk items) :=
  inferInstanceAs (Decidable (∀ i ∈ items, 0 ≤ i.quantity))

lemma invOk_reduce (itemId : String) (amount : Int) (items : List InventoryItem)
    (h : invOk items) : invOk (reduceInventoryQuantity itemId amount items) := by
  induction items with
  | nil => exact h
  | cons i rest ih =>
    simp only [reduceInventoryQuantity]
    by_cases hid : i.id = itemId
    · rw [if_pos hid]
      intro j hj
      rcases List.mem_cons.mp hj with hj1 | hj2
      · subst hj1; exact le_max_left 0 _
      · exact h j (List.mem_cons_of_mem i hj2)
    · rw [if_neg hid]
      intro j hj
      rcases List.mem_cons.mp hj with hj1 | hj2
      · subst hj1; exact h _ (List.mem_cons_self _ _)
      · exact ih (fun k hk => h k (List.mem_cons_of_mem i hk)) j hj2

lemma invOk_foldl_reduce (items : List LineItem) (inv : List InventoryItem)
    (h : invOk inv) :
    invOk (items.foldl
      (fun acc it => reduceInventoryQuantity it.itemId it.quantity acc) inv) := by
  induction items generalizing inv with
  | nil => exact h
  | cons it rest ih =>
    exact ih _ (invOk_reduce it.itemId it.quantity inv h)

lemma invOk_update (id : String) (u : InventoryUpdate)
    (hu : ∀ x, u.quantityField = some x → 0 ≤ x) (items : List InventoryItem)
    (h : invOk items) : invOk (updateInventoryItem id u items) := by
  induction items with
  | nil => exact h
  | cons i rest ih =>
    simp only [updateInventoryItem]
    by_cases hid : i.id = id
    · rw [if_pos hid]
      intro j hj
      rcases List.mem_cons.mp hj with hj1 | hj2
      · subst hj1
        show 0 ≤ (applyUpdate i u).quantity
        cases hq : u.quantityField with
        | none => simpa [applyUpdate, hq] using h _ (List.mem_cons_self _ _)
        | some x => simpa [applyUpdate, hq] using hu x hq
      · exact h j (List.mem_cons_of_mem i hj2)
    · rw [if_neg hid]
      intro j hj
      rcases List.mem_cons.mp hj with hj1 | hj2
      · subst hj1; exact h _ (List.mem_cons_self _ _)
      · exact ih (fun k hk => h k (List.mem_cons_of_mem i hk)) j hj2

/-- C1 counterexample: from a state satisfying the invariant, the repository
operation `updateInventoryItem` — called with a negative quantity, which the
repository itself never checks — produces a state with a negative quantity.
(In the application this is prevented only by the UI-side validation in
`Inventory.saveEdit`, not by the repository.) -/
theorem inventory_invariant_counterexample :
    invOk [⟨"a", "Widget", 3, 50, 0⟩] ∧
      ¬ invOk (updateInventoryItem "a" ⟨none, none, some (-5), none, none⟩
          [⟨"a", "Widget", 3, 50, 0⟩]) := by
  decide

/-- C1 (amended): the invariant `quantity ≥ 0` is preserved by
`deleteInventoryItem`, `reduceInventoryQuantity`, `createInvoice` and
`deleteInvoice` unconditionally, and by `addInventoryItem` /
`updateInventoryItem` provided the supplied quantity (if any) is ≥ 0 — which
the UI handlers validate before calling the repository. The repository
operations themselves never drive an existing quantity below 0: decrements
clamp at 0. -/
theorem inventory_invariant_amended (s : Store) (h : invOk s.inventory) :
    (∀ name q p newId now, 0 ≤ q →
        invOk (addInventoryItem name q p newId now s).2.inventory) ∧
      (∀ id u, (∀ x, u.quantityField = some x → 0 ≤ x) →
        invOk (updateInventoryItem id u s.inventory)) ∧
      (∀ id, invOk (deleteInventoryItem id s.inventory)) ∧
      (∀ itemId amount, invOk (reduceInventoryQuantity itemId amount s.inventory)) ∧
      (∀ cn items tot newId now,
        invOk (createInvoice cn items tot newId now s).2.inventory) ∧
      (∀ id, invOk (deleteInvoice id s).inventory) := by
  refine ⟨?_, ?_, ?_, ?_, ?_, ?_⟩
  · intro name q p newId now hq j hj
    rcases List.mem_append.mp hj with hj1 | hj2
    · exact h j hj1
    · rcases List.mem_singleton.mp hj2 with rfl
      exact hq
  · intro id u hu
    exact invOk_update id u hu s.inventory h
  · intro id j hj
    exact h j (List.mem_of_mem_filter hj)
  · intro itemId amount
    exact invOk_reduce itemId amount s.inventory h
  · intro cn items tot newId now
    exact invOk_foldl_reduce items s.inventory h
  · intro id
    exact h

/-- A small concrete store used by witnesses. -/
def demoStore : Store :=
  { inventory := [⟨"a", "Widget", 10, 50, 0⟩, ⟨"b", "Gadget", 4, 20, 0⟩]
    invoices := [⟨"i1", "Acme", [⟨"a", "Widget", 3, 50, 150⟩], 150, 0⟩] }

/-- C1 witness: at a concrete valid store, invoice creation keeps every
quantity ≥ 0. -/
theorem inventory_invariant_amended_witness :
    invOk (createInvoice "Acme" [⟨"a", "Widget", 10, 50, 500⟩] 500 "i2" 5
        demoStore).2.inventory := by
  have h := inventory_invariant_amended demoStore (by decide)
  exact h.2.2.2.2.1 "Acme" [⟨"a", "Widget", 10, 50, 500⟩] 500 "i2" 5

/-! ## Invoice deletion (C6) -/

/-- C6: deleting an invoice removes exactly the invoices bearing the given id
from the invoice collection, is a no-op when no invoice has that id, and
leaves the inventory collection — hence the consumed stock — unchanged. -/
theorem deleteInvoice_spec (s : Store) (id : String) :
    (deleteInvoice id s).inventory = s.inventory ∧
      (deleteInvoice id s).invoices = s.invoices.filter (fun inv => inv.id ≠ id) ∧
      ((∀ inv ∈ s.invoices, inv.id ≠ id) → deleteInvoice id s = s) := by
  refine ⟨rfl, rfl, ?_⟩
  intro h
  have hfilter : s.invoices.filter (fun inv => inv.id ≠ id) = s.invoices := by
    apply List.filter_eq_self.mpr
    intro inv hinv
    simpa using h inv hinv
  unfold deleteInvoice
  rw [hfilter]

/-- C6 witness: deleting an absent invoice id leaves the concrete store
unchanged, and its inventory is never touched. -/
theorem deleteInvoice_spec_witness :
    (deleteInvoice "zz" demoStore).inventory = demoStore.inventory ∧
      deleteInvoice "zz" demoStore = demoStore := by
  have h := deleteInvoice_spec demoStore "zz"
  exact ⟨h.1, h.2.2 (by decide)⟩

/-! ## Analytics: sales windows (store.ts:105-143) -/

/-- `7 * 24 * 60 * 60 * 1000` milliseconds. -/
def weekMs : Int := 7 * 24 * 60 * 60 * 1000

/-- `getTodaySales` (store.ts:106-111): the comparison of
`new Date(createdAt).toDateString()` against today's date string is modelled
by the abstract local-calendar-day predicate `isToday`. -/
def getTodaySales (isToday : Int → Bool) (invoices : List Invoice) : ℚ :=
  (invoices.filter (fun inv => isToday inv.createdAt)).foldl
    (fun sum inv => sum + inv.total) 0

/-- `getThisWeekSales` (store.ts:137-143): filters `createdAt >= now - 7d`
(note: no upper bound) and sums the totals. -/
def getThisWeekSales (now : Int) (invoices : List Invoice) : ℚ :=
  (invoices.filter (fun inv => decide (now - weekMs ≤ inv.createdAt))).foldl
    (fun sum inv => sum + inv.total) 0

/-- `getLastWeekSales` (store.ts:125-135): filters
`now - 14d <= createdAt < now - 7d` and sums the totals. -/
def getLastWeekSales (now : Int) (invoices : List Invoice) : ℚ :=
  (invoices.filter (fun inv =>
      decide (now - 2 * weekMs ≤ inv.createdAt) && decide (inv.createdAt < now - weekMs))).foldl
    (fun sum inv => sum + inv.total) 0

/-- Modelled from the spec's words (C7): sales in the half-open rolling window
`[now - 7d, now)`. -/
def specThisWeekSales (now : Int) (invoices : List Invoice) : ℚ :=
  (invoices.filter (fun inv =>
      decide (now - weekMs ≤ inv.createdAt) && decide (inv.createdAt < now))).foldl
    (fun sum inv => sum + inv.total) 0

/-- Modelled from the spec's words (C7): sales in the half-open rolling window
`[now - 14d, now - 7d)`. -/
def specLastWeekSales (now : Int) (invoices : List Invoice) : ℚ :=
  (invoices.filter (fun inv =>
      decide (now - 2 * weekMs ≤ inv.createdAt) && decide (inv.createdAt < now - weekMs))).foldl
    (fun sum inv => sum + inv.total) 0

/-- C7 counterexample: an invoice whose `createdAt` lies after `now` (outside
the claimed window `[now-7d, now)`) is still counted by `getThisWeekSales`,
because the code has no upper cutoff at `now`. -/
theorem weekWindows_counterexample :
    getThisWeekSales 0 [⟨"f", "Future", [], 100, 1⟩] = 100 ∧
      specThisWeekSales 0 [⟨"f", "Future", [], 100, 1⟩] = 0 := by
  constructor
  · norm_num [getThisWeekSales, weekMs, List.filter]
  · norm_num [specThisWeekSales, weekMs, List.filter]

/-- C7 (amended): `getLastWeekSales` counts exactly the invoices with
`createdAt ∈ [now-14d, now-7d)`, as the claim states; `getThisWeekSales`
counts exactly those with `createdAt ≥ now-7d`, with no upper bound at `now`
— it coincides with the claimed `[now-7d, now)` window exactly on collections
whose invoices all have `createdAt < now` (as every invoice the application
itself creates does). -/
theorem weekWindows_amended (now : Int) (invoices : List Invoice) :
    getLastWeekSales now invoices = specLastWeekSales now invoices ∧
      ((∀ inv ∈ invoices, inv.createdAt < now) →
        getThisWeekSales now invoices = specThisWeekSales now invoices) := by
  constructor
  · rfl
  · intro h
    unfold getThisWeekSales specThisWeekSales
    have hcongr : invoices.filter (fun inv => decide (now - weekMs ≤ inv.createdAt)) =
        invoices.filter (fun inv =>
          decide (now - weekMs ≤ inv.createdAt) && decide (inv.createdAt < now)) := by
      apply List.filter_congr
      intro inv hinv
      simp [h inv hinv]
    rw [hcongr]

/-- C7 witness: at a concrete collection of past invoices the two window
readings agree, and last-week is the claimed half-open window. -/
theorem weekWindows_amended_witness :
    getLastWeekSales 1000000000 [⟨"i1", "Acme", [], 150, 999000000⟩] =
        specLastWeekSales 1000000000 [⟨"i1", "Acme", [], 150, 999000000⟩] ∧
      getThisWeekSales 1000000000 [⟨"i1", "Acme", [], 150, 999000000⟩] =
        specThisWeekSales 1000000000 [⟨"i1", "Acme", [], 150, 999000000⟩] := by
  have h := weekWindows_amended 1000000000 [⟨"i1", "Acme", [], 150, 999000000⟩]
  exact ⟨h.1, h.2 (by decide)⟩

/-! ## Top-selling product (store.ts:145-164) -/

/-- The `{ name, quantity }` values of the `productSales` record. -/
structure ProductSale where
  name : String
  quantity : Int
deriving Repr, DecidableEq

/-- One line item folded into the `productSales` record: if the `itemId` key
is absent it is inserted with quantity 0 (at the end — the keys are UUID
strings, which JavaScript objects enumerate in insertion order), then the
line's quantity is added. -/
def bump (acc : List (String × ProductSale)) (itemId itemName : String)
    (q : Int) : List (String × ProductSale) :=
  match acc with
  | [] => [(itemId, ⟨itemName, q⟩)]
  | (k, p) :: rest =>
    if k = itemId then (k, ⟨p.name, p.quantity + q⟩) :: rest
    else (k, p) :: bump rest itemId itemName q

/-- The aggregation loop of `getTopSellingProduct` (store.ts:149-156). -/
def productSales (invoices : List Invoice) : List (String × ProductSale) :=
  invoices.foldl (fun acc inv =>
    inv.items.foldl (fun a item => bump a item.itemId item.itemName item.quantity) acc) []

/-- `products.reduce((top, product) => product.quantity > top.quantity ? product : top)`
(store.ts:161-163). -/
def pickTop (top : ProductSale) : List ProductSale → ProductSale
  | [] => top
  | p :: rest => pickTop (if p.quantity > top.quantity then p else top) rest

/-- `getTopSellingProduct` (store.ts:145-164). -/
def getTopSellingProduct (invoices : List Invoice) : Option ProductSale :=
  match (productSales invoices).map (fun e => e.2) with
  | [] => none
  | h :: t => some (pickTop h t)

/-- All line items of a list of invoices, in encounter order. -/
def invoiceLines (invoices : List Invoice) : List LineItem :=
  (invoices.map (fun inv => inv.items)).flatten

/-- Total quantity sold of one item id across a list of line items (the
quantity the claim says `getTopSellingProduct` aggregates per distinct id). -/
def soldQty (lines : List LineItem) (id : String) : Int :=
  ((lines.filter (fun li => li.itemId = id)).map (fun li => li.quantity)).sum

/-- Quantity recorded under a key of the aggregation record (0 if absent). -/
def lookupQty : List (String × ProductSale) → String → Int
  | [], _ => 0
  | e :: rest, id => if e.1 = id then e.2.quantity else lookupQty rest id

lemma bump_lookupQty (acc : List (String × ProductSale)) (itemId itemName : String)
    (q : Int) (id : String) :
    lookupQty (bump acc itemId itemName q) id =
      lookupQty acc id + (if id = itemId then q else 0) := by
  induction acc with
  | nil =>
    by_cases h : id = itemId
    · rw [if_pos h]
      simp only [bump, lookupQty]
      rw [if_pos (h.symm : itemId = id)]
      simp
    · rw [if_neg h]
      simp only [bump, lookupQty]
      rw [if_neg (fun hf : itemId = id => h hf.symm)]
      simp
  | cons e rest ih =>
    obtain ⟨k, p⟩ := e
    simp only [bump]
    by_cases hk : k = itemId
    · rw [if_pos hk]
      simp only [lookupQty]
      by_cases hid : k = id
      · rw [if_pos hid, if_pos hid, if_pos (by rw [← hid, hk] : id = itemId)]
      · rw [if_neg hid, if_neg hid,
          if_neg (fun hf : id = itemId => hid (by rw [hk, ← hf]))]
        simp
    · rw [if_neg hk]
      simp only [lookupQty]
      by_cases hid : k = id
      · rw [if_pos hid, if_pos hid,
          if_neg (fun hf : id = itemId => hk (by rw [hid, hf]))]
        simp
      · rw [if_neg hid, if_neg hid, ih]

lemma soldQty_cons (li : LineItem) (rest : List LineItem) (id : String) :
    soldQty (li :: rest) id =
      (if id = li.itemId then li.quantity else 0) + soldQty rest id := by
  by_cases h : li.itemId = id
  · rw [if_pos h.symm]
    simp [soldQty, List.filter_cons, h, List.sum_cons]
  · rw [if_neg (fun hf => h hf.symm)]
    simp [soldQty, List.filter_cons, h]

lemma lookupQty_foldl_bump (lines : List LineItem)
    (acc : List (String × ProductSale)) (id : String) :
    lookupQty (lines.foldl (fun a li => bump a li.itemId li.itemName li.quantity) acc) id =
      lookupQty acc id + soldQty lines id := by
  induction lines generalizing acc with
  | nil =>
    simp only [List.foldl_nil, soldQty, List.filter_nil, List.map_nil,
      List.sum_nil, add_zero]
  | cons li rest ih =>
    simp only [List.foldl_cons]
    rw [ih, bump_lookupQty, soldQty_cons]
    ring

lemma productSales_eq_foldl_lines (invoices : List Invoice) :
    productSales invoices =
      (invoiceLines invoices).foldl
        (fun a li => bump a li.itemId li.itemName li.quantity) [] := by
  unfold productSales invoiceLines
  rw [List.foldl_flatten, List.foldl_map]

lemma bump_keys (acc : List (String × ProductSale)) (itemId itemName : String)
    (q : Int) :
    (bump acc itemId itemName q).map Prod.fst =
      if itemId ∈ acc.map Prod.fst then acc.map Prod.fst
      else acc.map Prod.fst ++ [itemId] := by
  induction acc with
  | nil => simp [bump]
  | cons e rest ih =>
    obtain ⟨k, p⟩ := e
    by_cases hk : k = itemId
    · simp [bump, hk]
    · have : ¬ itemId = k := fun h => hk h.symm
      simp only [bump, if_neg hk, List.map_cons, List.mem_cons, this, false_or, ih]
      split
      · rfl
      · rfl

lemma bump_keys_nodup (acc : List (String × ProductSale)) (itemId itemName : String)
    (q : Int) (h : (acc.map Prod.fst).Nodup) :
    ((bump acc itemId itemName q).map Prod.fst).Nodup := by
  rw [bump_keys]
  split
  · exact h
  · next hni =>
    rw [List.nodup_append]
    exact ⟨h, List.nodup_singleton itemId, by simpa [List.disjoint_singleton] using hni⟩

lemma foldl_bump_keys_nodup (lines : List LineItem)
    (acc : List (String × ProductSale)) (h : (acc.map Prod.fst).Nodup) :
    (((lines.foldl (fun a li => bump a li.itemId li.itemName li.quantity) acc)).map
      Prod.fst).Nodup := by
  induction lines generalizing acc with
  | nil => exact h
  | cons li rest ih =>
    exact ih _ (bump_keys_nodup acc li.itemId li.itemName li.quantity h)

lemma lookupQty_of_mem (acc : List (String × ProductSale))
    (h : (acc.map Prod.fst).Nodup) (id : String) (p : ProductSale)
    (hm : (id, p) ∈ acc) : lookupQty acc id = p.quantity := by
  induction acc with
  | nil => cases hm
  | cons e rest ih =>
    simp only [List.map_cons, List.nodup_cons] at h
    rcases List.mem_cons.mp hm with heq | hm2
    · rw [← heq]
      simp [lookupQty]
    · have hkey : e.1 ≠ id := by
        intro hkid
        apply h.1
        have : id ∈ rest.map Prod.fst := by
          exact List.mem_map_of_mem Prod.fst hm2
        rw [hkid]
        exact this
      simp only [lookupQty, if_neg hkey]
      exact ih h.2 hm2

/-- Default value used only to state list indexing without bound proofs. -/
def defaultPS : ProductSale := ⟨"", 0⟩

lemma pickTop_first_max (top : ProductSale) (l : List ProductSale) :
    ∃ k, k < (top :: l).length ∧
      (top :: l).getD k defaultPS = pickTop top l ∧
      (∀ j, j < (top :: l).length →
        ((top :: l).getD j defaultPS).quantity ≤ (pickTop top l).quantity) ∧
      (∀ j, j < k → ((top :: l).getD j defaultPS).quantity < (pickTop top l).quantity) := by
  induction l generalizing top with
  | nil =>
    refine ⟨0, by simp, by simp [pickTop], ?_, ?_⟩
    · intro j hj
      have : j = 0 := by simpa using Nat.lt_one_iff.mp (by simpa using hj)
      subst this
      simp [pickTop]
    · intro j hj
      omega
  | cons p rest ih =>
    by_cases h : p.quantity > top.quantity
    · have hstep : pickTop top (p :: rest) = pickTop p rest := by
        simp [pickTop, h]
      obtain ⟨k', hk', hget', hmax', hfirst'⟩ := ih p
      refine ⟨k' + 1, by simpa using hk', ?_, ?_, ?_⟩
      · rw [hstep]
        simpa using hget'
      · intro j hj
        rw [hstep]
        match j with
        | 0 =>
          have hp : p.quantity ≤ (pickTop p rest).quantity := by
            have := hmax' 0 (by simp)
            simpa using this
          simp only [List.getD_cons_zero]
          omega
        | j + 1 =>
          have := hmax' j (by simpa using hj)
          simpa using this
      · intro j hj
        rw [hstep]
        match j with
        | 0 =>
          have hp : p.quantity ≤ (pickTop p rest).quantity := by
            have := hmax' 0 (by simp)
            simpa using this
          simp only [List.getD_cons_zero]
          omega
        | j + 1 =>
          have := hfirst' j (by omega)
          simpa using this
    · have hstep : pickTop top (p :: rest) = pickTop top rest := by
        simp [pickTop, h]
      have hple : p.quantity ≤ top.quantity := by omega
      obtain ⟨k', hk', hget', hmax', hfirst'⟩ := ih top
      have htople : top.quantity ≤ (pickTop top rest).quantity := by
        have := hmax' 0 (by simp)
        simpa using this
      match k', hk', hget', hfirst' with
      | 0, hk', hget', hfirst' =>
        refine ⟨0, by simp, ?_, ?_, ?_⟩
        · rw [hstep]
          simpa using hget'
        · intro j hj
          rw [hstep]
          have htop : top = pickTop top rest := by simpa using hget'
          match j with
          | 0 => simpa using htople
          | 1 =>
            simp only [List.getD_cons_succ, List.getD_cons_zero]
            rw [← htop]
            exact hple
          | j + 2 =>
            have := hmax' (j + 1) (by simpa using hj)
            simpa using this
        · intro j hj
          omega
      | m + 1, hk', hget', hfirst' =>
        refine ⟨m + 2, by simpa using hk', ?_, ?_, ?_⟩
        · rw [hstep]
          simpa using hget'
        · intro j hj
          rw [hstep]
          match j with
          | 0 => simpa using htople
          | 1 =>
            simp only [List.getD_cons_succ, List.getD_cons_zero]
            omega
          | j + 2 =>
            have := hmax' (j + 1) (by simpa using hj)
            simpa using this
        · intro j hj
          rw [hstep]
          match j with
          | 0 =>
            have := hfirst' 0 (by omega)
            simpa using this
          | 1 =>
            have h0 := hfirst' 0 (by omega)
            simp only [List.getD_cons_zero] at h0
            simp only [List.getD_cons_succ, List.getD_cons_zero]
            omega
          | j + 2 =>
            have := hfirst' (j + 1) (by omega)
            simpa using this

/-- C8: `getTopSellingProduct` (a) returns `none` on an empty invoice list;
(b) every entry of the aggregation record holds exactly the total quantity
sold of its item id across all invoice line items; and (c) a returned product
is an entry of the aggregation record (kept in first-seen order), its
aggregated quantity is maximal, and every record entry preceding it (i.e.
first seen earlier) has a strictly smaller aggregated quantity — so on ties
the earliest-recorded product stays the leader. -/
theorem topSellingProduct_spec (invoices : List Invoice) :
    (invoices = [] → getTopSellingProduct invoices = none) ∧
      (∀ id p, (id, p) ∈ productSales invoices →
        p.quantity = soldQty (invoiceLines invoices) id) ∧
      (∀ p, getTopSellingProduct invoices = some p →
        ∃ k, k < ((productSales invoices).map (fun e => e.2)).length ∧
          ((productSales invoices).map (fun e => e.2)).getD k defaultPS = p ∧
          (∀ j, j < ((productSales invoices).map (fun e => e.2)).length →
            (((productSales invoices).map (fun e => e.2)).getD j defaultPS).quantity ≤
              p.quantity) ∧
          (∀ j, j < k →
            (((productSales invoices).map (fun e => e.2)).getD j defaultPS).quantity <
              p.quantity)) := by
  refine ⟨?_, ?_, ?_⟩
  · rintro rfl
    rfl
  · intro id p hm
    have hnd : ((productSales invoices).map Prod.fst).Nodup := by
      rw [productSales_eq_foldl_lines]
      exact foldl_bump_keys_nodup (invoiceLines invoices) [] (by simp)
    have h1 : lookupQty (productSales invoices) id = p.quantity :=
      lookupQty_of_mem (productSales invoices) hnd id p hm
    have h2 : lookupQty (productSales invoices) id =
        soldQty (invoiceLines invoices) id := by
      rw [productSales_eq_foldl_lines, lookupQty_foldl_bump]
      simp [lookupQty]
    rw [← h1, h2]
  · intro p hp
    unfold getTopSellingProduct at hp
    rcases hlist : (productSales invoices).map (fun e => e.2) with _ | ⟨h, t⟩
    · rw [hlist] at hp
      cases hp
    · rw [hlist] at hp
      have hpt : pickTop h t = p := by
        simpa using hp
      obtain ⟨k, hk, hget, hmax, hfirst⟩ := pickTop_first_max h t
      rw [hpt] at hget hmax hfirst
      exact ⟨k, by rw [hlist]; exact hk, by rw [hlist]; exact hget,
        fun j hj => by rw [hlist] at hj ⊢; exact hmax j hj,
        fun j hj => by rw [hlist]; exact hfirst j hj⟩

/-- The spec's tie-break example: product A is sold in quantity 5 first, then
product B in quantity 5 via a separate invoice. -/
def tieInvoices : List Invoice :=
  [⟨"i1", "C1", [⟨"a", "Product A", 5, 10, 50⟩], 50, 0⟩,
   ⟨"i2", "C2", [⟨"b", "Product B", 5, 10, 50⟩], 50, 1⟩]

/-- C8 witness: on the tie example the code returns product A (recorded
first), and the theorem's characterization applies to it. -/
theorem topSellingProduct_spec_witness :
    getTopSellingProduct tieInvoices = some ⟨"Product A", 5⟩ ∧
      ∃ k, k < ((productSales tieInvoices).map (fun e => e.2)).length ∧
        ((productSales tieInvoices).map (fun e => e.2)).getD k defaultPS =
          (⟨"Product A", 5⟩ : ProductSale) ∧
        (∀ j, j < ((productSales tieInvoices).map (fun e => e.2)).length →
          (((productSales tieInvoices).map (fun e => e.2)).getD j defaultPS).quantity ≤
            (5 : Int)) ∧
        (∀ j, j < k →
          (((productSales tieInvoices).map (fun e => e.2)).getD j defaultPS).quantity <
            (5 : Int)) := by
  have heval : getTopSellingProduct tieInvoices = some ⟨"Product A", 5⟩ := by
    decide
  exact ⟨heval, (topSellingProduct_spec tieInvoices).2.2 ⟨"Product A", 5⟩ heval⟩

/-! ## Low stock and insights (store.ts:166-209) -/

/-- `getLowStockItems` (store.ts:166-168): quantity strictly below the fixed
threshold 5. -/
def getLowStockItems (items : List InventoryItem) : List InventoryItem :=
  items.filter (fun item => decide (item.quantity < 5))

/-- The fixed welcome/onboarding message of store.ts:206. -/
def welcomeMsg : String :=
  "🚀 Welcome! Start by adding inventory items and creating invoices to see insights."

/-- The low-stock message of store.ts:190-191: names the first two low-stock
items, with an "and N more" suffix when more than two are low. -/
def lowStockMsg (lowStockItems : List InventoryItem) : String :=
  let itemNames := String.intercalate ", " ((lowStockItems.take 2).map (fun i => i.name))
  "⚠️ Low stock alert: " ++ itemNames ++
    (if lowStockItems.length > 2 then
      " and " ++ toString (lowStockItems.length - 2) ++ " more"
    else "") ++ " may run out soon."

/-- store.ts:205-207: the final rule appending the welcome message exactly
when the accumulated list is still empty. -/
def withFallback (insights : List String) : List String :=
  if insights.length = 0 then insights ++ [welcomeMsg] else insights

/-- Rules 1-6 of `generateInsights` (store.ts:170-202). JavaScript number
formatting is abstracted: `fmtPct` stands for `toFixed(0)` on the percentage,
`fmtAmt` for `toLocaleString()` on the amount, and `isToday` for the
calendar-day test of `getTodaySales`; the claims hold for every choice. -/
def insightRules (fmtPct fmtAmt : ℚ → String) (isToday : Int → Bool)
    (now : Int) (s : Store) : List String :=
  let thisWeekSales := getThisWeekSales now s.invoices
  let lastWeekSales := getLastWeekSales now s.invoices
  let lowStockItems := getLowStockItems s.inventory
  let topProduct := getTopSellingProduct s.invoices
  let todaySales := getTodaySales isToday s.invoices
  let insights : List String := []
  let insights :=
    if thisWeekSales > lastWeekSales ∧ lastWeekSales > 0 then
      insights ++ ["📈 Sales are up " ++
        fmtPct ((thisWeekSales - lastWeekSales) / lastWeekSales * 100) ++
        "% compared to last week. Great momentum!"]
    else if thisWeekSales < lastWeekSales ∧ lastWeekSales > 0 then
      insights ++
        ["📉 Sales have decreased compared to last week. Consider running a promotion."]
    else if thisWeekSales > 0 then
      insights ++ ["📊 Your business is generating steady sales. Keep it up!"]
    else insights
  let insights :=
    if lowStockItems.length > 0 then insights ++ [lowStockMsg lowStockItems]
    else insights
  let insights :=
    match topProduct with
    | some topProduct =>
      if topProduct.quantity > 3 then
        insights ++ ["🏆 \"" ++ topProduct.name ++ "\" is your best seller with " ++
          toString topProduct.quantity ++ " units sold."]
      else insights
    | none => insights
  let insights :=
    if todaySales > 0 then
      insights ++ ["💰 You\x27ve made ₹" ++ fmtAmt todaySales ++ " in sales today."]
    else insights
  insights

/-- `generateInsights` (store.ts:170-209): rules 1-6, then the fallback. -/
def generateInsights (fmtPct fmtAmt : ℚ → String) (isToday : Int → Bool)
    (now : Int) (s : Store) : List String :=
  withFallback (insightRules fmtPct fmtAmt isToday now s)

/-- C9: on a completely empty data set every rule 1-6 contributes nothing, so
`generateInsights` returns exactly one string — the welcome message — whatever
the clock, calendar and number formatting are. -/
theorem generateInsights_empty (fmtPct fmtAmt : ℚ → String) (isToday : Int → Bool)
    (now : Int) :
    generateInsights fmtPct fmtAmt isToday now ⟨[], []⟩ = [welcomeMsg] := by
  rfl

lemma withFallback_ne_nil (l : List String) : withFallback l ≠ [] := by
  unfold withFallback
  split
  · simp
  · next h =>
    intro hnil
    rw [hnil] at h
    exact h rfl

/-- C10: for every store whatsoever, `generateInsights` returns a non-empty
list: the fallback welcome message is appended exactly when rules 1-6 produced
nothing, and otherwise the rules' output is returned as is. -/
theorem generateInsights_nonempty (fmtPct fmtAmt : ℚ → String)
    (isToday : Int → Bool) (now : Int) (s : Store) :
    generateInsights fmtPct fmtAmt isToday now s ≠ [] ∧
      (insightRules fmtPct fmtAmt isToday now s = [] →
        generateInsights fmtPct fmtAmt isToday now s = [welcomeMsg]) ∧
      (insightRules fmtPct fmtAmt isToday now s ≠ [] →
        generateInsights fmtPct fmtAmt isToday now s =
          insightRules fmtPct fmtAmt isToday now s) := by
  refine ⟨withFallback_ne_nil _, ?_, ?_⟩
  · intro h
    unfold generateInsights withFallback
    rw [h]
    rfl
  · intro h
    unfold generateInsights withFallback
    rw [if_neg (fun hlen => h (List.length_eq_zero.mp hlen))]

/-- C10 witness: at concrete arguments, the rules of the empty store produce
nothing and the fallback fires. -/
theorem generateInsights_nonempty_witness :
    generateInsights (fun _ => "") (fun _ => "") (fun _ => false) 0 ⟨[], []⟩ =
      [welcomeMsg] := by
  exact (generateInsights_nonempty (fun _ => "") (fun _ => "") (fun _ => false) 0
    ⟨[], []⟩).2.1 (by rfl)

/-! ## UI form handlers (src/pages/Inventory.tsx, src/pages/Invoices.tsx) -/

/-- JavaScript `String.prototype.trim()`: strip whitespace from both ends.
(Defined structurally over the character list so that concrete instances
evaluate; Lean core `String.trim` is extensionally the same but defined by
well-founded recursion.) -/
def strTrim (s : String) : String :=
  ⟨((s.data.dropWhile Char.isWhitespace).reverse.dropWhile Char.isWhitespace).reverse⟩

/-- `Inventory.handleSubmit`: the raw text fields are modelled post-parsing
(`none` stands for an empty or unparsable field); the three validation guards
come before the single repository call. A rejected submission shows a toast
and returns, leaving the store unchanged, which `none` models. -/
def handleSubmitAddItem (name : String) (quantity : Option Int) (price : Option ℚ)
    (newId : String) (now : Int) (s : Store) : Option InventoryItem × Store :=
  if strTrim name = "" then (none, s)
  else
    match quantity with
    | none => (none, s)
    | some q =>
      if q < 0 then (none, s)
      else
        match price with
        | none => (none, s)
        | some p =>
          if p ≤ 0 then (none, s)
          else
            let r := addInventoryItem (strTrim name) q p newId now s
            (some r.1, r.2)

/-- C3 counterexample: the repository entry point `addInventoryItem`, called
directly with an empty name, a negative quantity and a zero price, does not
fail or reject: it appends the invalid item to the stored collection and
returns it. -/
theorem addInventoryItem_no_validation :
    (addInventoryItem "" (-1) 0 "id1" 0 ⟨[], []⟩).2.inventory =
        [⟨"id1", "", -1, 0, 0⟩] ∧
      (addInventoryItem "" (-1) 0 "id1" 0 ⟨[], []⟩).1 = ⟨"id1", "", -1, 0, 0⟩ ∧
      (addInventoryItem "" (-1) 0 "id1" 0 ⟨[], []⟩).2 ≠ (⟨[], []⟩ : Store) := by
  refine ⟨rfl, rfl, ?_⟩
  intro h
  have := congrArg (fun t => t.inventory.length) h
  simp [addInventoryItem] at this

/-- C3 (amended): validation of add inputs lives in the UI handler
`Inventory.handleSubmit`, not in the repository. The handler rejects an empty
(trimmed) name, a missing or negative quantity, or a missing or non-positive
price — as a toast plus early return, not an exception — leaving the store
unchanged; on valid input it calls `addInventoryItem`, which appends the item
with the generated id and timestamp and returns it. The repository entry point
itself accepts every input unchecked. -/
theorem addItem_validation_amended (name : String) (q : Option Int) (p : Option ℚ)
    (newId : String) (now : Int) (s : Store) :
    (strTrim name = "" ∨ q = none ∨ (∃ x, q = some x ∧ x < 0) ∨ p = none ∨
        (∃ y, p = some y ∧ y ≤ 0) →
      handleSubmitAddItem name q p newId now s = (none, s)) ∧
      (∀ x y, q = some x → p = some y → ¬ strTrim name = "" → 0 ≤ x → 0 < y →
        handleSubmitAddItem name q p newId now s =
          (some ⟨newId, strTrim name, x, y, now⟩,
            { s with inventory := s.inventory ++ [⟨newId, strTrim name, x, y, now⟩] })) ∧
      (∀ (nm : String) (qv : Int) (pv : ℚ),
        addInventoryItem nm qv pv newId now s =
          (⟨newId, nm, qv, pv, now⟩,
            { s with inventory := s.inventory ++ [⟨newId, nm, qv, pv, now⟩] })) := by
  refine ⟨?_, ?_, ?_⟩
  · intro h
    rcases h with h | h | ⟨x, hx, hxlt⟩ | h | ⟨y, hy, hyle⟩
    · simp [handleSubmitAddItem, h]
    · subst h
      simp [handleSubmitAddItem]
    · subst hx
      simp [handleSubmitAddItem, hxlt]
    · subst h
      cases q with
      | none => simp [handleSubmitAddItem]
      | some x =>
        by_cases hx : x < 0 <;> simp [handleSubmitAddItem, hx]
    · subst hy
      cases q with
      | none => simp [handleSubmitAddItem]
      | some x =>
        by_cases hx : x < 0 <;> simp [handleSubmitAddItem, hx, hyle]
  · intro x y hx hy hn hx0 hy0
    subst hx
    subst hy
    simp [handleSubmitAddItem, hn, not_lt.mpr hx0, not_le.mpr hy0, addInventoryItem]
  · intro nm qv pv
    rfl

/-- C3 witness: a concrete invalid submission (price 0) is rejected with the
store unchanged, and a concrete valid one appends exactly the new item. -/
theorem addItem_validation_amended_witness :
    handleSubmitAddItem " " (some 3) (some 0) "id9" 7 demoStore =
        (none, demoStore) ∧
      handleSubmitAddItem "Bolt" (some 3) (some 2) "id9" 7 demoStore =
        (some ⟨"id9", strTrim "Bolt", 3, 2, 7⟩,
          { demoStore with
            inventory := demoStore.inventory ++ [⟨"id9", strTrim "Bolt", 3, 2, 7⟩] }) := by
  constructor
  · exact (addItem_validation_amended " " (some 3) (some 0) "id9" 7 demoStore).1
      (Or.inr (Or.inr (Or.inr (Or.inr ⟨0, rfl, le_refl 0⟩))))
  · exact (addItem_validation_amended "Bolt" (some 3) (some 2) "id9" 7 demoStore).2.1
      3 2 rfl rfl (by decide) (by decide) (by norm_num)

/-- One `{itemId, quantity}` row of the invoice form. -/
structure InvoiceFormItem where
  itemId : String
  quantity : Int
deriving Repr, DecidableEq

/-- Invoices.tsx:79: keep the rows with a selected item and positive quantity. -/
def validFormItems (formItems : List InvoiceFormItem) : List InvoiceFormItem :=
  formItems.filter (fun fi => decide (¬ fi.itemId = "") && decide (fi.quantity > 0))

/-- Invoices.tsx:90-100: a row fails the stock check when its item is found in
the inventory and the requested quantity exceeds the stock (rows whose id is
not found are skipped by this check). -/
def stockShort (inventory : List InventoryItem) (fi : InvoiceFormItem) : Bool :=
  match inventory.find? (fun i => i.id = fi.itemId) with
  | some it => decide (fi.quantity > it.quantity)
  | none => false

/-- Invoices.tsx:102-111: resolve each row against the current inventory and
snapshot the item's name and price into a line entry with
`total = price * quantity`. The non-null assertion `find(...)!` is modelled by
`Option`: `none` models the runtime failure on an unresolvable id. -/
def makeInvoiceItems (inventory : List InventoryItem) :
    List InvoiceFormItem → Option (List LineItem)
  | [] => some []
  | fi :: rest =>
    match inventory.find? (fun i => i.id = fi.itemId) with
    | none => none
    | some it =>
      match makeInvoiceItems inventory rest with
      | none => none
      | some lis =>
        some ({ itemId := fi.itemId, itemName := it.name, quantity := fi.quantity,
                price := it.price, total := it.price * (fi.quantity : ℚ) } :: lis)

/-- `Invoices.handleSubmit` (Invoices.tsx:67-127): validates the customer
name, the rows, and stock sufficiency against a live read of the inventory;
builds the snapshot line items and their sum; and calls the repository
`createInvoice`. `none` covers every rejected (toast) path. -/
def handleSubmitInvoice (customerName : String) (formItems : List InvoiceFormItem)
    (newId : String) (now : Int) (s : Store) : Option (Invoice × Store) :=
  if strTrim customerName = "" then none
  else if (validFormItems formItems).length = 0 then none
  else if (validFormItems formItems).any (stockShort s.inventory) then none
  else
    match makeInvoiceItems s.inventory (validFormItems formItems) with
    | none => none
    | some invoiceItems =>
      some (createInvoice (strTrim customerName) invoiceItems
        (invoiceItems.foldl (fun sum item => sum + item.total) 0) newId now s)

lemma makeInvoiceItems_forall2 (inventory : List InventoryItem)
    (formItems : List InvoiceFormItem) (lis : List LineItem)
    (h : makeInvoiceItems inventory formItems = some lis) :
    List.Forall₂ (fun fi li => ∃ it,
        inventory.find? (fun i => i.id = fi.itemId) = some it ∧
          li = ⟨fi.itemId, it.name, fi.quantity, it.price,
            it.price * (fi.quantity : ℚ)⟩)
      formItems lis := by
  induction formItems generalizing lis with
  | nil =>
    simp only [makeInvoiceItems, Option.some.injEq] at h
    subst h
    exact List.Forall₂.nil
  | cons fi rest ih =>
    simp only [makeInvoiceItems] at h
    rcases hf : inventory.find? (fun i => i.id = fi.itemId) with _ | it
    · rw [hf] at h
      cases h
    · rw [hf] at h
      rcases hr : makeInvoiceItems inventory rest with _ | lis2
      · rw [hr] at h
        cases h
      · rw [hr] at h
        simp only [Option.some.injEq] at h
        subst h
        exact List.Forall₂.cons ⟨it, hf, rfl⟩ (ih lis2 hr)

lemma makeInvoiceItems_totals (inventory : List InventoryItem)
    (formItems : List InvoiceFormItem) (lis : List LineItem)
    (h : makeInvoiceItems inventory formItems = some lis) :
    ∀ li ∈ lis, li.total = li.price * (li.quantity : ℚ) := by
  induction formItems generalizing lis with
  | nil =>
    simp only [makeInvoiceItems, Option.some.injEq] at h
    subst h
    intro li hli
    cases hli
  | cons fi rest ih =>
    simp only [makeInvoiceItems] at h
    rcases hf : inventory.find? (fun i => i.id = fi.itemId) with _ | it
    · rw [hf] at h
      cases h
    · rw [hf] at h
      rcases hr : makeInvoiceItems inventory rest with _ | lis2
      · rw [hr] at h
        cases h
      · rw [hr] at h
        simp only [Option.some.injEq] at h
        subst h
        intro li hli
        rcases List.mem_cons.mp hli with rfl | hli2
        · rfl
        · exact ih lis2 hr li hli2

/-- C4: when the handler's validations pass (non-empty trimmed customer name,
at least one valid row, no insufficient stock) and every row's id resolves,
invoice creation: snapshots name and price for every row from the
pre-decrement inventory with each line total = price × quantity (the
`Forall₂` conjunct), sums the line totals into the invoice total, assigns the
generated id and timestamp, appends the invoice to the invoice collection,
and only then — as the second step, on the resulting store — folds one
`reduceInventoryQuantity` call per line item over the inventory collection. -/
theorem createInvoiceFlow_spec (customerName : String)
    (formItems : List InvoiceFormItem) (newId : String) (now : Int) (s : Store)
    (lineItems : List LineItem)
    (hname : ¬ strTrim customerName = "")
    (hne : ¬ (validFormItems formItems).length = 0)
    (hstock : (validFormItems formItems).any (stockShort s.inventory) = false)
    (hmk : makeInvoiceItems s.inventory (validFormItems formItems) = some lineItems) :
    handleSubmitInvoice customerName formItems newId now s =
        some (⟨newId, strTrim customerName, lineItems,
                lineItems.foldl (fun sum item => sum + item.total) 0, now⟩,
          ⟨lineItems.foldl
              (fun inv item => reduceInventoryQuantity item.itemId item.quantity inv)
              s.inventory,
            s.invoices ++
              [⟨newId, strTrim customerName, lineItems,
                lineItems.foldl (fun sum item => sum + item.total) 0, now⟩]⟩) ∧
      List.Forall₂ (fun fi li => ∃ it,
          s.inventory.find? (fun i => i.id = fi.itemId) = some it ∧
            li = ⟨fi.itemId, it.name, fi.quantity, it.price,
              it.price * (fi.quantity : ℚ)⟩)
        (validFormItems formItems) lineItems := by
  constructor
  · unfold handleSubmitInvoice
    rw [if_neg hname, if_neg hne, hstock]
    simp only [Bool.false_eq_true, if_false, hmk, createInvoice]
  · exact makeInvoiceItems_forall2 s.inventory (validFormItems formItems)
      lineItems hmk

/-- The line item the C4/C5 witnesses expect: 3 Widgets at the snapshot price
50 from `demoStore`. -/
def witnessLine : LineItem := ⟨"a", "Widget", 3, 50, (50 : ℚ) * ((3 : Int) : ℚ)⟩

/-- C4 witness: selling 3 Widgets to Acme from the concrete store appends
exactly the expected invoice and then decrements the inventory. -/
theorem createInvoiceFlow_spec_witness :
    handleSubmitInvoice "Acme" [⟨"a", 3⟩] "i9" 99 demoStore =
      some (⟨"i9", strTrim "Acme", [witnessLine],
              [witnessLine].foldl (fun sum item => sum + item.total) 0, 99⟩,
        ⟨[witnessLine].foldl
            (fun inv item => reduceInventoryQuantity item.itemId item.quantity inv)
            demoStore.inventory,
          demoStore.invoices ++
            [⟨"i9", strTrim "Acme", [witnessLine],
              [witnessLine].foldl (fun sum item => sum + item.total) 0, 99⟩]⟩) :=
  (createInvoiceFlow_spec "Acme" [⟨"a", 3⟩] "i9" 99 demoStore [witnessLine]
    (by decide) (by decide) (by decide) (by rfl)).1

/-- Store-level `updateInventoryItem` (store.ts:49-56): writes only the
inventory key; the invoice collection is untouched. -/
def updateInventoryItemStore (id : String) (u : InventoryUpdate) (s : Store) :
    Store :=
  { s with inventory := updateInventoryItem id u s.inventory }

lemma foldl_add_total (items : List LineItem) (acc : ℚ) :
    items.foldl (fun sum item => sum + item.total) acc =
      acc + (items.map (fun item => item.total)).sum := by
  induction items generalizing acc with
  | nil => simp
  | cons li rest ih =>
    simp only [List.foldl_cons, List.map_cons, List.sum_cons]
    rw [ih]
    ring

/-- C5: every invoice produced by the creation flow stores a `total` equal to
the sum of its line totals, every line total equals its snapshotted price
times its quantity, the invoice is stored, and a later inventory update of
any kind (price edits included) leaves the stored invoice collection — hence
these stored values — unchanged. -/
theorem invoiceTotals_spec (customerName : String)
    (formItems : List InvoiceFormItem) (newId : String) (now : Int) (s : Store)
    (inv : Invoice) (s2 : Store)
    (h : handleSubmitInvoice customerName formItems newId now s = some (inv, s2)) :
    inv.total = (inv.items.map (fun item => item.total)).sum ∧
      (∀ li ∈ inv.items, li.total = li.price * (li.quantity : ℚ)) ∧
      (∀ id u, (updateInventoryItemStore id u s2).invoices = s2.invoices) ∧
      inv ∈ s2.invoices := by
  unfold handleSubmitInvoice at h
  split at h
  · cases h
  · split at h
    · cases h
    · split at h
      · cases h
      · rcases hmk : makeInvoiceItems s.inventory (validFormItems formItems)
          with _ | lis
        · rw [hmk] at h
          cases h
        · rw [hmk] at h
          simp only [Option.some.injEq, createInvoice, Prod.mk.injEq] at h
          obtain ⟨hinv, hs2⟩ := h
          refine ⟨?_, ?_, ?_, ?_⟩
          · rw [← hinv]
            simp only
            rw [foldl_add_total, zero_add]
          · rw [← hinv]
            simp only
            exact makeInvoiceItems_totals s.inventory (validFormItems formItems)
              lis hmk
          · intro id u
            rfl
          · rw [← hs2, ← hinv]
            simp only
            exact List.mem_append.mpr (Or.inr (List.mem_singleton.mpr rfl))

/-- C5 witness: the concrete invoice from the C4 scenario satisfies the sum
and snapshot invariants and survives inventory updates. -/
theorem invoiceTotals_spec_witness :
    (⟨"i9", strTrim "Acme", [witnessLine],
        [witnessLine].foldl (fun sum item => sum + item.total) 0, 99⟩ :
      Invoice).total =
      (([witnessLine].map (fun item => item.total)).sum) ∧
    ∀ li ∈ [witnessLine], li.total = li.price * (li.quantity : ℚ) := by
  have h := invoiceTotals_spec "Acme" [⟨"a", 3⟩] "i9" 99 demoStore
    (⟨"i9", strTrim "Acme", [witnessLine],
        [witnessLine].foldl (fun sum item => sum + item.total) 0, 99⟩)
    (⟨[witnessLine].foldl
        (fun inv item => reduceInventoryQuantity item.itemId item.quantity inv)
        demoStore.inventory,
      demoStore.invoices ++
        [⟨"i9", strTrim "Acme", [witnessLine],
          [witnessLine].foldl (fun sum item => sum + item.total) 0, 99⟩]⟩)
    (by rfl)
  exact ⟨h.1, h.2.1⟩

end Vyappar
